import Mathlib

/-!
Verification development for the draupnir policy query and validation engine
(`src/draupnir_mcp_server/server.py`).  The definitions below are a shallow
embedding of the source: strings manipulated by the glob matcher and the path
sandbox are modelled as `List Char`, YAML documents as an inductive `Yaml`
tree, and the filesystem as an explicit map passed to each operation.
-/

namespace Draupnir

/-! ## Character-list utilities (models of Python `str` operations) -/

/-- Model of Python `s.split(c)` for a single-character separator:
splits on every occurrence, keeping empty pieces. -/
def splitOnChar (c : Char) : List Char → List (List Char)
  | [] => [[]]
  | x :: xs =>
    match splitOnChar c xs with
    | [] => [[]]
    | r :: rs => if x = c then [] :: r :: rs else (x :: r) :: rs

/-- Model of Python `s.partition(c)` for a single-character separator:
returns the part before the first occurrence, whether the separator was
found, and the part after it.  When the separator is absent Python returns
`(s, '', '')`; here that is `(s, false, [])`. -/
def partitionOn (c : Char) : List Char → List Char × Bool × List Char
  | [] => ([], false, [])
  | x :: xs =>
    if x = c then ([], true, xs)
    else
      match partitionOn c xs with
      | (pre, found, post) => (x :: pre, found, post)

/-- Model of Python `needle in hay` (substring containment). -/
def containsSub (hay needle : List Char) : Bool :=
  match hay with
  | [] => needle.isEmpty
  | h :: t => needle.isPrefixOf (h :: t) || containsSub t needle

/-- Substring containment lifted to `String`. -/
def containsStr (hay needle : String) : Bool :=
  containsSub hay.data needle.data

/-- Model of Python `s.lower()` (ASCII is all that appears here). -/
def lowerChars (s : List Char) : List Char :=
  s.map Char.toLower

/-! ## Glob segment matching (model of Python `fnmatch.fnmatchcase`)

A single path segment is matched against a single pattern segment.  `*`
matches any run of characters, `?` any single character, `[...]` a character
class (with `!` negation, a leading `]` taken literally, and `a-z` ranges);
an unterminated class makes `[` a literal character.  The matcher is written
with explicit fuel; every recursive step shrinks `pattern.length +
candidate.length`, so `pattern.length + candidate.length + 1` fuel always
suffices and the out-of-fuel branch is never reached. -/

/-- Parse a character class after a `[`: returns (negated, content, rest)
or `none` when the class is unterminated (Python then escapes the `[`). -/
def parseCharClass (s : List Char) : Option (Bool × List Char × List Char) :=
  let (neg, s') := match s with
    | '!' :: rest => (true, rest)
    | _ => (false, s)
  let (firstLit, s'') := match s' with
    | ']' :: rest => ([']'], rest)
    | _ => (([] : List Char), s')
  match partitionOn ']' s'' with
  | (content, true, rest) => some (neg, firstLit ++ content, rest)
  | (_, false, _) => none

/-- Does character `c` belong to the (already parsed) class content?
`x-y` denotes a range unless the `-` is first or last. -/
def classHas : List Char → Char → Bool
  | [], _ => false
  | [x], c => x = c
  | x :: '-' :: y :: rest, c =>
    if rest = [] ∧ y = ']' then
      -- cannot happen: content never contains ']' except as leading literal
      (x = c) || classHas ('-' :: y :: rest) c
    else (x ≤ c && c ≤ y) || classHas rest c
  | x :: rest, c => x = c || classHas rest c

/-- Fuel-driven worker for segment matching. -/
def segMatchF : Nat → List Char → List Char → Bool
  | 0, _, _ => false
  | _ + 1, [], s => s.isEmpty
  | fuel + 1, '*' :: ps, s =>
    segMatchF fuel ps s ||
      (match s with
       | [] => false
       | _ :: cs => segMatchF fuel ('*' :: ps) cs)
  | fuel + 1, '?' :: ps, s =>
    match s with
    | [] => false
    | _ :: cs => segMatchF fuel ps cs
  | fuel + 1, '[' :: ps, s =>
    match parseCharClass ps with
    | some (neg, content, rest) =>
      (match s with
       | [] => false
       | c :: cs => (classHas content c != neg) && segMatchF fuel rest cs)
    | none =>
      (match s with
       | [] => false
       | c :: cs => ('[' = c) && segMatchF fuel ps cs)
  | fuel + 1, p :: ps, s =>
    match s with
    | [] => false
    | c :: cs => (p = c) && segMatchF fuel ps cs

/-- Match one path segment against one glob pattern segment
(`fnmatch.fnmatchcase`). -/
def segMatch (pat seg : List Char) : Bool :=
  segMatchF (pat.length + seg.length + 1) pat seg

/-! ## Path-level matching (model of `PurePosixPath.match`) -/

/-- Split a POSIX path string into its components the way `PurePosixPath`
does: split on `/`, dropping empty components and `.` components. -/
def parseParts (s : List Char) : List (List Char) :=
  (splitOnChar '/' s).filter (fun seg => seg ≠ [] ∧ seg ≠ ['.'])

/-- Model of `PurePosixPath(path).match(pattern)`: a relative pattern is
matched from the right, component-wise, each component via `segMatch`; an
absolute pattern must cover the whole of an absolute path.  An empty
pattern raises `ValueError` in Python; it is modelled as no match. -/
def pathMatch (path pattern : List Char) : Bool :=
  let patAbs := pattern.head? = some '/'
  let pathAbs := path.head? = some '/'
  let pp := parseParts pattern
  let xs := parseParts path
  if pp = [] then false
  else if patAbs then
    pathAbs && pp.length == xs.length &&
      ((xs.reverse.zip pp.reverse).all fun sp => segMatch sp.2 sp.1)
  else if pp.length ≤ xs.length then
    (xs.reverse.zip pp.reverse).all fun sp => segMatch sp.2 sp.1
  else false

/-! ## Pattern normalization (source: `_expand_brace_patterns`,
`_normalize_patterns`, `_matches`) -/

/-- Embedding of `_expand_brace_patterns`: expand the first
`{a,b,c}` group; a pattern without a balanced group is returned whole. -/
def _expand_brace_patterns (pattern : List Char) : List (List Char) :=
  if '{' ∈ pattern ∧ '}' ∈ pattern then
    match partitionOn '{' pattern with
    | (pre, _, rest) =>
      match partitionOn '}' rest with
      | (inner, found, post) =>
        if found then (splitOnChar ',' inner).map (fun opt => pre ++ opt ++ post)
        else [pattern]
  else [pattern]

/-- Embedding of `_normalize_patterns`: brace expansion plus, for every
expanded pattern starting with `**/`, a copy with that prefix stripped. -/
def _normalize_patterns (pattern : List Char) : List (List Char) :=
  (_expand_brace_patterns pattern).flatMap fun pat =>
    pat :: (if ['*', '*', '/'].isPrefixOf pat then [pat.drop 3] else [])

/-- Embedding of `_matches`: the candidate path matches the pattern iff
`PurePosixPath(path).match` accepts any normalized pattern. -/
def _matches (path pattern : List Char) : Bool :=
  (_normalize_patterns pattern).any fun pat => pathMatch path pat

/-! ## Spec-described glob semantics (for comparison with `_matches`)

The specification describes whole-path shell-glob semantics: the candidate,
taken as one forward-slash string, matches the pattern, where `*` matches any
run of characters except `/` and `**` matches runs that may cross `/`. -/

/-- Fuel-driven worker for the spec's whole-path glob semantics. -/
def specGlobF : Nat → List Char → List Char → Bool
  | 0, _, _ => false
  | _ + 1, [], s => s.isEmpty
  | fuel + 1, '*' :: '*' :: ps, s =>
    specGlobF fuel ps s ||
      (match s with
       | [] => false
       | _ :: cs => specGlobF fuel ('*' :: '*' :: ps) cs)
  | fuel + 1, '*' :: ps, s =>
    specGlobF fuel ps s ||
      (match s with
       | [] => false
       | c :: cs => if c = '/' then false else specGlobF fuel ('*' :: ps) cs)
  | fuel + 1, '?' :: ps, s =>
    match s with
    | [] => false
    | c :: cs => if c = '/' then false else specGlobF fuel ps cs
  | fuel + 1, p :: ps, s =>
    match s with
    | [] => false
    | c :: cs => (p = c) && specGlobF fuel ps cs

/-- Whole-path glob match as described by the spec: `*` does not cross `/`,
`**` does. -/
def specGlobMatch (pattern cand : List Char) : Bool :=
  specGlobF (pattern.length + cand.length + 1) pattern cand

/-- Modelled from the spec: "The candidate matches the overall GlobPattern
iff it matches ANY pattern in the resulting set, using standard shell-style
glob semantics where `*` matches any run of characters except the path
separator and `**` matches across separators."  Same normalization as the
source, but whole-path matching instead of `PurePosixPath.match`. -/
def specMatches (path pattern : List Char) : Bool :=
  (_normalize_patterns pattern).any fun pat => specGlobMatch pat path

/-! ## YAML document model

The parsed-document tree consumed by the validator (the output of the
external `yaml.safe_load` collaborator). -/

inductive Yaml where
  | null
  | bool (b : Bool)
  | int (n : Int)
  | str (s : String)
  | list (xs : List Yaml)
  | map (kvs : List (String × Yaml))
deriving Repr

/-- Python truthiness of a parsed YAML value (`bool(x)`). -/
def truthy : Yaml → Bool
  | .null => false
  | .bool b => b
  | .int n => n ≠ 0
  | .str s => s ≠ ""
  | .list xs => !xs.isEmpty
  | .map kvs => !kvs.isEmpty

/-- Model of `d.get(k)`: the first binding of `k`, else `None`; non-mapping
receivers yield `None`. -/
def yGet (y : Yaml) (k : String) : Yaml :=
  match y with
  | .map kvs =>
    match kvs.find? (fun kv => kv.1 == k) with
    | some kv => kv.2
    | none => .null
  | _ => .null

/-- Model of `k in d` for a mapping. -/
def hasKey (y : Yaml) (k : String) : Bool :=
  match y with
  | .map kvs => kvs.any (fun kv => kv.1 == k)
  | _ => false

/-- Iterating a parsed value as a list (`for x in v`): lists yield their
elements, everything else yields nothing. -/
def yIter : Yaml → List Yaml
  | .list xs => xs
  | _ => []

/-- Model of `v or []` followed by list iteration. -/
def orList (y : Yaml) : List Yaml :=
  if truthy y then yIter y else []

/-- Model of `v or {}`. -/
def orEmptyMap (y : Yaml) : Yaml :=
  if truthy y then y else .map []

/-! ## Rendering (model of the external `yaml.safe_dump` collaborator)

The validator and the posture scan only inspect the rendered text through
substring tests (`"53"`, `"toFQDNs"`, `port: '53'`, `port: 53`), so the
model reproduces PyYAML's block style far enough for those observations:
every mapping entry is rendered as `key: value` on one line (or `key:`
followed by an indented block), list items get a `-` prefix, empty
containers render inline as `{}` / `[]`, and scalar strings made of digits
are single-quoted exactly as PyYAML quotes number-like strings. -/

/-- Is the string all digits (PyYAML would quote it when dumping)? -/
def isDigits (s : List Char) : Bool :=
  !s.isEmpty && s.all (fun c => c.isDigit)

/-- Render a scalar (or empty container) inline. -/
def dumpScalar : Yaml → String
  | .null => "null"
  | .bool b => if b then "true" else "false"
  | .int n => toString n
  | .str s => if isDigits s.data then "\x27" ++ s ++ "\x27" else s
  | .list _ => "[]"
  | .map _ => "{}"

/-- Values rendered inline after `key: ` or `- `. -/
def isInline : Yaml → Bool
  | .list xs => xs.isEmpty
  | .map kvs => kvs.isEmpty
  | _ => true

/-- `n` spaces. -/
def pad : Nat → String
  | 0 => ""
  | n + 1 => " " ++ pad n

mutual

/-- Block-style lines of a value at a given indent. -/
def dumpLines : Yaml → Nat → List String
  | .map kvs, n => dumpMapLines kvs n
  | .list xs, n => dumpListLines xs n
  | y, n => [pad n ++ dumpScalar y]

/-- Block-style lines of a mapping's entries. -/
def dumpMapLines : List (String × Yaml) → Nat → List String
  | [], _ => []
  | (k, v) :: rest, n =>
    (if isInline v then [pad n ++ k ++ ": " ++ dumpScalar v]
     else (pad n ++ k ++ ":") :: dumpLines v (n + 2)) ++ dumpMapLines rest n

/-- Block-style lines of a sequence's items. -/
def dumpListLines : List Yaml → Nat → List String
  | [], _ => []
  | x :: rest, n =>
    (if isInline x then [pad n ++ "- " ++ dumpScalar x]
     else (pad n ++ "-") :: dumpLines x (n + 2)) ++ dumpListLines rest n

end

/-- Model of `yaml.safe_dump(v)`. -/
def ySafeDump (y : Yaml) : String :=
  if isInline y then dumpScalar y ++ "\n"
  else String.intercalate "\n" (dumpLines y 0) ++ "\n"

/-! ## Policy validator (source: `validate_cilium_policy`, lines 177-233) -/

/-- The report built by `validate_cilium_policy` for one document. -/
structure VReport where
  path : String
  errors : List String
  warnings : List String
  kind : Yaml
  metadata : List (String × Yaml)
  summary : List (String × Bool)
deriving Repr

/-- Embedding of the nested `_has_l7_ports(rules)` helper:
`for rule in rules or []: for tp in rule.get("toPorts", []): ...`. -/
def _has_l7_ports (rules : Yaml) : Bool :=
  (orList rules).any fun rule =>
    (yIter (yGet rule "toPorts")).any fun tp =>
      truthy (yGet tp "ports") || truthy (yGet tp "rules")

/-- Embedding of the document-level body of `validate_cilium_policy`
(everything after the file has been read and parsed). -/
def validateDoc (path : String) (data : Yaml) : VReport :=
  let base : VReport :=
    { path := path, errors := [], warnings := [], kind := .null,
      metadata := [], summary := [] }
  match data with
  | .map _ =>
    let kind := yGet data "kind"
    let isCilium := match kind with
      | .str s => s == "CiliumNetworkPolicy" || s == "CiliumClusterwideNetworkPolicy"
      | _ => false
    if isCilium then
      let meta := orEmptyMap (yGet data "metadata")
      let errs1 := if hasKey meta "name" then [] else ["metadata.name is required"]
      let mdata := [("name", yGet meta "name"), ("namespace", yGet meta "namespace"),
                    ("labels", yGet meta "labels")]
      let spec := orEmptyMap (yGet data "spec")
      if truthy spec then
        let have_ingress := truthy (yGet spec "ingress")
        let have_egress := truthy (yGet spec "egress")
        let w1 := if !have_ingress && !have_egress then
                    ["No ingress/egress rules present (might not enforce anything)"]
                  else []
        let w2 := if have_ingress && !_has_l7_ports (yGet spec "ingress") then
                    ["Ingress has no L4/L7 ports (coarse allow?)"]
                  else []
        let w3 := if have_egress && !_has_l7_ports (yGet spec "egress") then
                    ["Egress has no L4/L7 ports (coarse allow?)"]
                  else []
        let w4 := if have_egress then
                    let text := ySafeDump (yGet spec "egress")
                    if !containsStr text "53" && !containsStr text "toFQDNs" then
                      ["No explicit DNS egress (add kube-dns:53 or toFQDNs)"]
                    else []
                  else []
        { base with
          kind := kind
          metadata := mdata
          summary := [("has_ingress", have_ingress), ("has_egress", have_egress)]
          errors := errs1
          warnings := w1 ++ w2 ++ w3 ++ w4 }
      else
        { base with
          kind := kind
          metadata := mdata
          errors := errs1 ++ ["spec is required"] }
    else
      { base with kind := kind, errors := ["Not a Cilium \x7bCNP|CCNP\x7d kind"] }
  | _ => { base with errors := ["YAML root must be a mapping"] }

/-! ## Path sandbox and single-file operations
(source: `_enforce_under`, `read_text`, the file-access prefix of
`validate_cilium_policy`) -/

/-- Parse a user path string the way `PurePosixPath` does: an absoluteness
flag plus the components, empty and `.` components dropped. -/
def parsePyPath (p : String) : Bool × List String :=
  (match p.data with
   | '/' :: _ => true
   | _ => false,
   ((splitOnChar '/' p.data).filter (fun seg => seg ≠ [] ∧ seg ≠ ['.'])).map
     fun seg => String.mk seg)

/-- Model of `DEFAULT_DATA_DIR / path`: an absolute user path replaces the
root, a relative one is appended to it. -/
def joinPyPath (root : List String) (p : String) : List String :=
  match parsePyPath p with
  | (true, segs) => segs
  | (false, segs) => root ++ segs

/-- Lexical part of `Path.resolve()`: `..` removes the previous component
(and is a no-op at the filesystem root). -/
def resolveSegs (segs : List String) : List String :=
  segs.foldl (fun acc s => if s = ".." then acc.dropLast else acc ++ [s]) []

/-- Embedding of `_enforce_under`: `path.relative_to(base)` succeeds iff
`base`'s components are a prefix of `path`'s, so the check passes exactly
for paths equal to or nested under the base. -/
def _enforce_under (path base : List String) : Bool :=
  base.isPrefixOf path

/-- Errors a single-file operation can surface. -/
inductive OpError where
  | accessDenied
  | notFound
  | parseError
deriving Repr, DecidableEq

/-- One file of the corpus as the external collaborators deliver it: its
decoded text and the outcome of parsing that text. -/
structure FileData where
  text : String
  parsed : Except Unit Yaml

/-- The filesystem under the root, keyed by resolved absolute path. -/
abbrev FS := List String → Option FileData

/-- Embedding of the `read_text` tool: join, resolve, enforce containment,
then (and only then) read. -/
def read_text (root : List String) (p : String) (fs : FS) : Except OpError String :=
  let fp := resolveSegs (joinPyPath root p)
  if _enforce_under fp root then
    match fs fp with
    | none => .error .notFound
    | some fd => .ok fd.text
  else .error .accessDenied

/-- Embedding of the full `validate_cilium_policy` tool: join, resolve,
enforce containment, read, parse (a parse failure propagates), validate. -/
def validate_cilium_policy (root : List String) (p : String) (fs : FS) :
    Except OpError VReport :=
  let fp := resolveSegs (joinPyPath root p)
  if _enforce_under fp root then
    match fs fp with
    | none => .error .notFound
    | some fd =>
      match fd.parsed with
      | .error _ => .error .parseError
      | .ok doc => .ok (validateDoc p doc)
  else .error .accessDenied

/-! ## Template generator (source: `generate_policy_template`) -/

/-- Embedding of the nested `port_obj` helper: split `"port/proto"` on `/`
(protocol defaults to `TCP` without a `/`); a string with more than one `/`
makes Python's 2-tuple unpacking raise, modelled as `none`. -/
def port_obj (p : List Char) : Option Yaml :=
  if '/' ∈ p then
    match splitOnChar '/' p with
    | [port, proto] =>
      some (.map [("ports", .list [.map [("port", .str (String.mk port)),
                                         ("protocol", .str (String.mk proto))]])])
    | _ => none
  else
    some (.map [("ports", .list [.map [("port", .str (String.mk p)),
                                       ("protocol", .str "TCP")]])])

/-- Embedding of `generate_policy_template` up to serialization: the source
returns `yaml.safe_dump(doc, sort_keys=False)`; the document built here is
that `doc`. `none` arguments model omitted Python arguments; `x or default`
replaces both `None` and `[]` by the defaults. -/
def generate_policy_template (app ns : String)
    (ingress_ports egress_fqdns : Option (List (List Char))) : Option Yaml :=
  let ip := match ingress_ports with
    | some (x :: xs) => x :: xs
    | _ => ["80/TCP".data, "443/TCP".data]
  let ef := match egress_fqdns with
    | some (x :: xs) => (x :: xs).map String.mk
    | _ => ["*.amazonaws.com"]
  match ip.mapM port_obj with
  | none => none
  | some tps =>
    some (.map
      [("apiVersion", .str "cilium.io/v2"),
       ("kind", .str "CiliumNetworkPolicy"),
       ("metadata", .map [("name", .str (app ++ "-ztp")), ("namespace", .str ns)]),
       ("spec", .map
         [("endpointSelector", .map
            [("matchLabels", .map
               [("k8s:io.kubernetes.pod.namespace", .str ns), ("app", .str app)])]),
          ("ingress", .list
            [.map [("fromEndpoints", .list [.map [("matchLabels", .map [("app", .str app)])]]),
                   ("toPorts", .list tps)]]),
          ("egress", .list
            [.map [("toFQDNs", .list (ef.map fun f => .map [("matchName", .str f)]))],
             .map [("toEndpoints", .list
                      [.map [("matchLabels", .map
                                [("k8s:io.kubernetes.pod.namespace", .str "kube-system"),
                                 ("k8s-app", .str "kube-dns")])]]),
                   ("toPorts", .list
                      [.map [("ports", .list
                                [.map [("port", .str "53"),
                                       ("protocol", .str "UDP")]])]])]])])])

/-! ## Posture scan (source: `zero_trust_checklist`) -/

/-- One corpus file as the scan sees it: its root-relative POSIX path and
the outcome of parsing its text. -/
structure CorpusEntry where
  rel : List Char
  parsed : Except Unit Yaml

/-- Model of `Path(...).suffix.lower()` computed from the relative path:
the part of the final component from its last dot on, unless that dot is
the component's first character or absent. -/
def pySuffixLower (rel : List Char) : List Char :=
  let name := (splitOnChar '/' rel).getLastD []
  match partitionOn '.' name.reverse with
  | (revExt, true, rest) =>
    if rest = [] then [] else lowerChars ('.' :: revExt.reverse)
  | (_, false, _) => []

/-- The glob-plus-extension filter at the top of the scan loop:
`if path_glob and not _matches(...)` then `if p.suffix.lower() not in
{".yaml", ".yml"}`. -/
def entryAdmitted (g : List Char) (e : CorpusEntry) : Bool :=
  (decide (g = []) || _matches e.rel g) &&
    (pySuffixLower e.rel == ".yaml".data || pySuffixLower e.rel == ".yml".data)

/-- The kind gate of the scan loop: the parsed document must be a mapping
whose `kind` is one of the two Cilium kinds; returns that kind. -/
def ciliumKind (doc : Yaml) : Option String :=
  match doc with
  | .map _ =>
    match yGet doc "kind" with
    | .str s =>
      if s == "CiliumNetworkPolicy" || s == "CiliumClusterwideNetworkPolicy" then
        some s
      else none
    | _ => none
  | _ => none

/-- The sections iterated by the scan from the ingress side:
`spec.get("ingress") or []` with `spec = doc.get("spec") or {}`. -/
def ingressSections (doc : Yaml) : List Yaml :=
  orList (yGet (orEmptyMap (yGet doc "spec")) "ingress")

/-- The sections iterated by the scan from the egress side. -/
def egressSections (doc : Yaml) : List Yaml :=
  orList (yGet (orEmptyMap (yGet doc "spec")) "egress")

/-- All sections the scan iterates:
`(spec.get("ingress") or []) + (spec.get("egress") or [])`. -/
def sectionsOf (doc : Yaml) : List Yaml :=
  ingressSections doc ++ egressSections doc

/-- The scan's L7 flag for one document: some section has a `toPorts` entry
with populated `ports` or `rules` (union of ingress and egress). -/
def docL7 (doc : Yaml) : Bool :=
  (sectionsOf doc).any fun s =>
    (orList (yGet s "toPorts")).any fun tp =>
      truthy (yGet tp "ports") || truthy (yGet tp "rules")

/-- The scan's DNS flag for one document: some section has truthy
`toFQDNs`, or its dump contains `port: '53'` or `port: 53`. -/
def docDNS (doc : Yaml) : Bool :=
  (sectionsOf doc).any fun s =>
    truthy (yGet s "toFQDNs") ||
      containsStr (ySafeDump s) "port: \x2753\x27" ||
      containsStr (ySafeDump s) "port: 53"

/-- What the scan loop does with one corpus entry: `none` when the entry is
skipped, otherwise the recognized kind and the two posture flags. -/
def scanEntry (g : List Char) (e : CorpusEntry) : Option (String × Bool × Bool) :=
  if entryAdmitted g e then
    match e.parsed with
    | .error _ => none
    | .ok doc =>
      match ciliumKind doc with
      | some k => some (k, docL7 doc, docDNS doc)
      | none => none
  else none

/-- The accumulated `stats` mapping of `zero_trust_checklist`. -/
structure ZTStats where
  total : Nat
  cnp : Nat
  ccnp : Nat
  with_l7 : Nat
  dns_ok : Nat
deriving Repr, DecidableEq

/-- One `details` row of `zero_trust_checklist`. -/
structure ZTDetail where
  path : List Char
  kind : String
  l7 : Bool
  dns_handled : Bool
deriving Repr, DecidableEq

/-- Embedding of `zero_trust_checklist`: fold the scan loop over the corpus
in iteration order. -/
def zero_trust_checklist (g : List Char) : List CorpusEntry → ZTStats × List ZTDetail
  | [] => (⟨0, 0, 0, 0, 0⟩, [])
  | e :: rest =>
    let r := zero_trust_checklist g rest
    match scanEntry g e with
    | none => r
    | some (k, l7, dns) =>
      ({ total := r.1.total + 1
         cnp := if k == "CiliumNetworkPolicy" then r.1.cnp + 1 else r.1.cnp
         ccnp := if k == "CiliumNetworkPolicy" then r.1.ccnp else r.1.ccnp + 1
         with_l7 := if l7 then r.1.with_l7 + 1 else r.1.with_l7
         dns_ok := if dns then r.1.dns_ok + 1 else r.1.dns_ok },
       ⟨e.rel, k, l7, dns⟩ :: r.2)

/-! ## Helper lemmas -/

/-- Join character lists with a separator character (used to state the
brace-group claims: `{a,b,c}` has interior `joinWith ',' [a, b, c]`). -/
def joinWith (c : Char) : List (List Char) → List Char
  | [] => []
  | [a] => a
  | a :: rest => a ++ c :: joinWith c rest

theorem splitOnChar_ne_nil (c : Char) (s : List Char) : splitOnChar c s ≠ [] := by
  cases s with
  | nil => simp [splitOnChar]
  | cons x xs =>
    simp only [splitOnChar]
    rcases hxs : splitOnChar c xs with _ | ⟨r, rs⟩
    · simp
    · by_cases hx : x = c <;> simp [hx]

theorem splitOnChar_of_not_mem {c : Char} {s : List Char} (h : c ∉ s) :
    splitOnChar c s = [s] := by
  induction s with
  | nil => rfl
  | cons x xs ih =>
    have hx : ¬ x = c := fun e => h (e ▸ List.mem_cons_self x xs)
    have hxs : c ∉ xs := fun m => h (List.mem_cons_of_mem _ m)
    simp [splitOnChar, ih hxs, hx]

theorem splitOnChar_append {c : Char} {a : List Char} (rest : List Char) (h : c ∉ a) :
    splitOnChar c (a ++ c :: rest) = a :: splitOnChar c rest := by
  induction a with
  | nil =>
    obtain ⟨r, rs, hr⟩ : ∃ r rs, splitOnChar c rest = r :: rs := by
      cases h' : splitOnChar c rest with
      | nil => exact absurd h' (splitOnChar_ne_nil c rest)
      | cons r rs => exact ⟨r, rs, rfl⟩
    simp [splitOnChar, hr]
  | cons x a' ih =>
    have hx : ¬ x = c := fun e => h (e ▸ List.mem_cons_self x a')
    have ha' : c ∉ a' := fun m => h (List.mem_cons_of_mem _ m)
    have key : splitOnChar c ((x :: a') ++ c :: rest) =
        match splitOnChar c (a' ++ c :: rest) with
        | [] => [[]]
        | r :: rs => if x = c then [] :: r :: rs else (x :: r) :: rs := rfl
    rw [key, ih ha']
    simp [hx]

theorem splitOnChar_joinWith {c : Char} {alts : List (List Char)}
    (hne : alts ≠ []) (h : ∀ a ∈ alts, c ∉ a) :
    splitOnChar c (joinWith c alts) = alts := by
  induction alts with
  | nil => exact absurd rfl hne
  | cons a rest ih =>
    cases rest with
    | nil =>
      simp only [joinWith]
      exact splitOnChar_of_not_mem (h a (by simp))
    | cons b rest' =>
      have : joinWith c (a :: b :: rest') = a ++ c :: joinWith c (b :: rest') := rfl
      rw [this, splitOnChar_append _ (h a (by simp)),
        ih (by simp) (fun x hx => h x (List.mem_cons_of_mem _ hx))]

theorem mem_joinWith {x c : Char} {alts : List (List Char)} (h : x ∈ joinWith c alts) :
    x = c ∨ ∃ a ∈ alts, x ∈ a := by
  induction alts with
  | nil => simp [joinWith] at h
  | cons a rest ih =>
    cases rest with
    | nil => exact .inr ⟨a, by simp, h⟩
    | cons b rest' =>
      have : joinWith c (a :: b :: rest') = a ++ c :: joinWith c (b :: rest') := rfl
      rw [this] at h
      rcases List.mem_append.mp h with ha | hcr
      · exact .inr ⟨a, by simp, ha⟩
      · rcases List.mem_cons.mp hcr with rfl | hr
        · exact .inl rfl
        · rcases ih hr with rfl | ⟨a', ha', hx⟩
          · exact .inl rfl
          · exact .inr ⟨a', List.mem_cons_of_mem _ ha', hx⟩

theorem partitionOn_of_not_mem {c : Char} {s : List Char} (h : c ∉ s) :
    partitionOn c s = (s, false, []) := by
  induction s with
  | nil => rfl
  | cons x xs ih =>
    have hx : ¬ x = c := fun e => h (e ▸ List.mem_cons_self x xs)
    have hxs : c ∉ xs := fun m => h (List.mem_cons_of_mem _ m)
    simp [partitionOn, hx, ih hxs]

theorem partitionOn_append {c : Char} {u : List Char} (v : List Char) (h : c ∉ u) :
    partitionOn c (u ++ c :: v) = (u, true, v) := by
  induction u with
  | nil => simp [partitionOn]
  | cons x u' ih =>
    have hx : ¬ x = c := fun e => h (e ▸ List.mem_cons_self x u')
    have hu' : c ∉ u' := fun m => h (List.mem_cons_of_mem _ m)
    simp [partitionOn, hx, ih hu']

theorem expand_of_no_open {s : List Char} (h : '{' ∉ s) :
    _expand_brace_patterns s = [s] := by
  simp [_expand_brace_patterns, h]

theorem expand_group {pre post : List Char} {alts : List (List Char)}
    (hne : alts ≠ []) (hpre : '{' ∉ pre)
    (halts : ∀ a ∈ alts, '{' ∉ a ∧ '}' ∉ a ∧ ',' ∉ a) :
    _expand_brace_patterns (pre ++ '{' :: (joinWith ',' alts ++ '}' :: post)) =
      alts.map fun a => pre ++ a ++ post := by
  have hjoin : '}' ∉ joinWith ',' alts := by
    intro hmem
    rcases mem_joinWith hmem with he | ⟨a, ha, hx⟩
    · exact absurd he (by decide)
    · exact (halts a ha).2.1 hx
  have hopen : '{' ∈ pre ++ '{' :: (joinWith ',' alts ++ '}' :: post) := by simp
  have hclose : '}' ∈ pre ++ '{' :: (joinWith ',' alts ++ '}' :: post) := by simp
  simp only [_expand_brace_patterns, if_pos (And.intro hopen hclose),
    partitionOn_append _ hpre, partitionOn_append _ hjoin, if_pos]
  rw [splitOnChar_joinWith hne (fun a ha => (halts a ha).2.2)]

theorem matches_iff {x P : List Char} :
    _matches x P = true ↔
      ∃ pat ∈ _expand_brace_patterns P,
        pathMatch x pat = true ∨
          (['*', '*', '/'].isPrefixOf pat = true ∧ pathMatch x (pat.drop 3) = true) := by
  unfold _matches _normalize_patterns
  rw [List.any_eq_true]
  constructor
  · rintro ⟨pat, hmem, hmatch⟩
    obtain ⟨q, hq, hpat⟩ := List.mem_flatMap.mp hmem
    by_cases hpre : ['*', '*', '/'].isPrefixOf q = true
    · rw [if_pos hpre] at hpat
      rcases List.mem_cons.mp hpat with rfl | hpat'
      · exact ⟨_, hq, .inl hmatch⟩
      · rcases List.mem_singleton.mp hpat' with rfl
        exact ⟨_, hq, .inr ⟨hpre, hmatch⟩⟩
    · rw [if_neg hpre] at hpat
      rcases List.mem_singleton.mp (by simpa using hpat) with rfl
      exact ⟨_, hq, .inl hmatch⟩
  · rintro ⟨pat, hmem, hm | ⟨hpre, hm⟩⟩
    · exact ⟨pat, List.mem_flatMap.mpr ⟨pat, hmem, by simp⟩, hm⟩
    · exact ⟨pat.drop 3, List.mem_flatMap.mpr ⟨pat, hmem, by simp [hpre]⟩, hm⟩

theorem zip_append_left {α β : Type} (u v : List α) (w : List β)
    (h : w.length ≤ u.length) : (u ++ v).zip w = u.zip w := by
  induction u generalizing w with
  | nil =>
    have : w = [] := List.eq_nil_of_length_eq_zero (Nat.le_zero.mp (by simpa using h))
    simp [this]
  | cons a u' ih =>
    cases w with
    | nil => simp
    | cons b w' =>
      simp only [List.cons_append, List.zip_cons_cons]
      rw [ih w' (by simpa using h)]

theorem zip_reverse_eq {α β : Type} (u : List α) (w : List β)
    (h : u.length = w.length) : u.reverse.zip w.reverse = (u.zip w).reverse := by
  induction u generalizing w with
  | nil =>
    have : w = [] := List.eq_nil_of_length_eq_zero (by simpa using h.symm)
    simp [this]
  | cons a u' ih =>
    cases w with
    | nil => simp at h
    | cons b w' =>
      have h' : u'.length = w'.length := by simpa using h
      simp only [List.reverse_cons]
      rw [List.zip_append (by simp [h']), ih w' h']
      simp

theorem revZipAll_iff {xs pp : List (List Char)} :
    (pp.length ≤ xs.length ∧
      (xs.reverse.zip pp.reverse).all (fun sp => segMatch sp.2 sp.1) = true) ↔
    ∃ tail, tail <:+ xs ∧
      List.Forall₂ (fun seg pseg => segMatch pseg seg = true) tail pp := by
  constructor
  · rintro ⟨hlen, hall⟩
    refine ⟨xs.drop (xs.length - pp.length), List.drop_suffix _ _, ?_⟩
    have hlen2 : (xs.drop (xs.length - pp.length)).length = pp.length := by
      simp only [List.length_drop]
      omega
    have hzip : xs.reverse.zip pp.reverse =
        ((xs.drop (xs.length - pp.length)).zip pp).reverse := by
      conv_lhs => rw [← List.take_append_drop (xs.length - pp.length) xs]
      rw [List.reverse_append,
        zip_append_left _ _ _ (by simp [hlen2]),
        zip_reverse_eq _ _ hlen2]
    rw [hzip, List.all_reverse] at hall
    rw [List.forall₂_iff_zip]
    refine ⟨hlen2, fun {a b} hab => ?_⟩
    simpa using List.all_eq_true.mp hall (a, b) hab
  · rintro ⟨tail, htail, hforall⟩
    have hlen : tail.length = pp.length := hforall.length_eq
    have hsub : tail.length ≤ xs.length := htail.length_le
    have hxeq : tail = xs.drop (xs.length - tail.length) :=
      List.suffix_iff_eq_drop.mp htail
    refine ⟨by omega, ?_⟩
    have hzip : xs.reverse.zip pp.reverse = (tail.zip pp).reverse := by
      conv_lhs =>
        rw [← List.take_append_drop (xs.length - tail.length) xs, ← hxeq]
      rw [List.reverse_append,
        zip_append_left _ _ _ (by simp [hlen]),
        zip_reverse_eq _ _ hlen]
    rw [hzip, List.all_reverse, List.all_eq_true]
    rintro ⟨a, b⟩ hab
    simpa using (List.forall₂_iff_zip.mp hforall).2 hab

theorem pathMatch_iff {x pat : List Char} (hrel : ¬ pat.head? = some '/')
    (hne : ¬ parseParts pat = []) :
    pathMatch x pat = true ↔
      ∃ tail, tail <:+ parseParts x ∧
        List.Forall₂ (fun seg pseg => segMatch pseg seg = true) tail
          (parseParts pat) := by
  unfold pathMatch
  simp only [if_neg hne, if_neg hrel]
  by_cases hl : (parseParts pat).length ≤ (parseParts x).length
  · rw [if_pos hl, ← revZipAll_iff]
    exact ⟨fun h => ⟨hl, h⟩, fun h => h.2⟩
  · rw [if_neg hl]
    constructor
    · intro h
      exact absurd h (by simp)
    · rintro ⟨tail, htail, hforall⟩
      exact absurd (hforall.length_eq ▸ htail.length_le) hl

theorem enforce_iff {fp base : List String} :
    _enforce_under fp base = true ↔ ∃ rest, fp = base ++ rest := by
  unfold _enforce_under
  rw [List.isPrefixOf_iff_prefix]
  constructor
  · rintro ⟨t, ht⟩
    exact ⟨t, ht.symm⟩
  · rintro ⟨t, ht⟩
    exact ⟨t, ht.symm⟩

/-! ## Claim theorems -/

/-- C1: for every root and user path, `read_text` and
`validate_cilium_policy` fail with `AccessDenied` iff the absolute path
obtained by joining the path with the root and resolving it is neither the
root nor nested under it; the containment check runs before any file read
(the outcome is the same for every filesystem `fs`, universally
quantified here). -/
theorem C1_sandbox_containment (root : List String) (p : String) (fs : FS) :
    (read_text root p fs = .error .accessDenied ↔
      ¬ ∃ rest, resolveSegs (joinPyPath root p) = root ++ rest) ∧
    (validate_cilium_policy root p fs = .error .accessDenied ↔
      ¬ ∃ rest, resolveSegs (joinPyPath root p) = root ++ rest) := by
  have hiff := @enforce_iff (resolveSegs (joinPyPath root p)) root
  constructor
  · simp only [read_text]
    by_cases h : _enforce_under (resolveSegs (joinPyPath root p)) root
    · rw [if_pos h]
      constructor
      · intro hres
        rcases hfs : fs (resolveSegs (joinPyPath root p)) with _ | fd <;>
          rw [hfs] at hres <;> simp at hres
      · intro hno
        exact absurd (hiff.mp h) hno
    · rw [if_neg h]
      exact ⟨fun _ hex => h (hiff.mpr hex), fun _ => rfl⟩
  · simp only [validate_cilium_policy]
    by_cases h : _enforce_under (resolveSegs (joinPyPath root p)) root
    · rw [if_pos h]
      constructor
      · intro hres
        rcases hfs : fs (resolveSegs (joinPyPath root p)) with _ | fd
        · rw [hfs] at hres
          simp at hres
        · rw [hfs] at hres
          rcases hp : fd.parsed with e | doc <;> simp [hp] at hres
      · intro hno
        exact absurd (hiff.mp h) hno
    · rw [if_neg h]
      exact ⟨fun _ hex => h (hiff.mpr hex), fun _ => rfl⟩

/-- C1 witness: at root `["data"]`, the traversal path `../etc/passwd`
resolves to `["etc", "passwd"]` and is denied, while `a/b.yaml` is
contained and is not denied. -/
theorem C1_sandbox_containment_witness :
    read_text ["data"] "../etc/passwd" (fun _ => none) = .error .accessDenied ∧
    ¬ read_text ["data"] "a/b.yaml" (fun _ => none) = .error .accessDenied := by
  constructor
  · exact (C1_sandbox_containment ["data"] "../etc/passwd" (fun _ => none)).1.mpr
      (by rintro ⟨rest, hrest⟩; simp [resolveSegs, joinPyPath, parsePyPath, splitOnChar] at hrest)
  · intro hden
    exact (C1_sandbox_containment ["data"] "a/b.yaml" (fun _ => none)).1.mp hden
      ⟨["a", "b.yaml"], by decide⟩

/-- The C4 document: a CiliumNetworkPolicy whose spec has one empty
ingress rule and one empty egress rule. -/
def emptyRulesPolicy : Yaml := .map
  [("kind", .str "CiliumNetworkPolicy"),
   ("metadata", .map [("name", .str "x")]),
   ("spec", .map [("ingress", .list [.map []]), ("egress", .list [.map []])])]

/-- C4 counterexample: validating the C4 document does not yield exactly
two warnings — it yields three. -/
theorem C4_counterexample :
    ¬ ((validateDoc "policy.yaml" emptyRulesPolicy).warnings.length = 2 ∧
       (validateDoc "policy.yaml" emptyRulesPolicy).errors.length = 0) := by
  decide

/-- C4 (amended): validating the C4 document yields exactly three
warnings — the ingress missing-L4/L7-ports warning, the egress
missing-L4/L7-ports warning and the missing-DNS-egress warning, in that
order — and zero errors. -/
theorem C4_amended_three_warnings (path : String) :
    (validateDoc path emptyRulesPolicy).warnings =
      ["Ingress has no L4/L7 ports (coarse allow?)",
       "Egress has no L4/L7 ports (coarse allow?)",
       "No explicit DNS egress (add kube-dns:53 or toFQDNs)"] ∧
    (validateDoc path emptyRulesPolicy).errors = [] :=
  ⟨rfl, rfl⟩

/-- The C5 document: a CiliumNetworkPolicy with empty metadata and empty
spec. -/
def emptyMetaPolicy : Yaml := .map
  [("kind", .str "CiliumNetworkPolicy"),
   ("metadata", .map []),
   ("spec", .map [])]

/-- C5: validating the C5 document yields exactly the errors
`metadata.name is required` then `spec is required`, in that order: the
missing name does not short-circuit, while the missing spec stops all
further checks — no warnings and no summary entries are produced. -/
theorem C5_missing_name_then_spec (path : String) :
    (validateDoc path emptyMetaPolicy).errors =
      ["metadata.name is required", "spec is required"] ∧
    (validateDoc path emptyMetaPolicy).warnings = [] ∧
    (validateDoc path emptyMetaPolicy).summary = [] :=
  ⟨rfl, rfl, rfl⟩

/-- C8: with absent or empty port/FQDN lists the template generator
produces the default document — named `<app>-ztp`, ingress `toPorts` for
80/TCP and 443/TCP, a first egress rule granting `*.amazonaws.com` and a
second egress rule allowing UDP/53 to kube-system/kube-dns endpoints —
and each supplied port string is split on `/`, the protocol defaulting to
TCP when no `/` is present. -/
theorem C8_template_defaults (app ns : String)
    (ip ef : Option (List (List Char)))
    (hip : ip = none ∨ ip = some []) (hef : ef = none ∨ ef = some []) :
    generate_policy_template app ns ip ef = some (.map
      [("apiVersion", .str "cilium.io/v2"),
       ("kind", .str "CiliumNetworkPolicy"),
       ("metadata", .map [("name", .str (app ++ "-ztp")), ("namespace", .str ns)]),
       ("spec", .map
         [("endpointSelector", .map
            [("matchLabels", .map
               [("k8s:io.kubernetes.pod.namespace", .str ns), ("app", .str app)])]),
          ("ingress", .list
            [.map [("fromEndpoints", .list [.map [("matchLabels", .map [("app", .str app)])]]),
                   ("toPorts", .list
                     [.map [("ports", .list
                              [.map [("port", .str "80"), ("protocol", .str "TCP")]])],
                      .map [("ports", .list
                              [.map [("port", .str "443"), ("protocol", .str "TCP")]])]])]]),
          ("egress", .list
            [.map [("toFQDNs", .list [.map [("matchName", .str "*.amazonaws.com")]])],
             .map [("toEndpoints", .list
                      [.map [("matchLabels", .map
                                [("k8s:io.kubernetes.pod.namespace", .str "kube-system"),
                                 ("k8s-app", .str "kube-dns")])]]),
                   ("toPorts", .list
                      [.map [("ports", .list
                               [.map [("port", .str "53"),
                                      ("protocol", .str "UDP")]])]])]])])]) ∧
    (∀ a b : List Char, '/' ∉ a → '/' ∉ b →
      port_obj (a ++ '/' :: b) =
        some (.map [("ports", .list
          [.map [("port", .str (String.mk a)),
                 ("protocol", .str (String.mk b))]])])) ∧
    (∀ q : List Char, '/' ∉ q →
      port_obj q =
        some (.map [("ports", .list
          [.map [("port", .str (String.mk q)),
                 ("protocol", .str "TCP")]])])) := by
  refine ⟨?_, ?_, ?_⟩
  · rcases hip with rfl | rfl <;> rcases hef with rfl | rfl <;> rfl
  · intro a b ha hb
    have hmem : '/' ∈ a ++ '/' :: b := by simp
    rw [port_obj, if_pos hmem, splitOnChar_append _ ha, splitOnChar_of_not_mem hb]
  · intro q hq
    rw [port_obj, if_neg hq]

/-- C8 witness: at `app = "web"`, `ns = "prod"` with both lists absent,
the generator succeeds, and the two port-splitting facts hold at
`80/TCP` and at `53`. -/
theorem C8_template_defaults_witness :
    (generate_policy_template "web" "prod" none none).isSome = true ∧
    port_obj "80/TCP".data =
      some (.map [("ports", .list
        [.map [("port", .str "80"), ("protocol", .str "TCP")]])]) ∧
    port_obj "53".data =
      some (.map [("ports", .list
        [.map [("port", .str "53"), ("protocol", .str "TCP")]])]) := by
  have h := C8_template_defaults "web" "prod" none none (.inl rfl) (.inl rfl)
  refine ⟨by rw [h.1]; rfl, ?_, ?_⟩
  · have := h.2.1 "80".data "TCP".data (by decide) (by decide)
    simpa using this
  · have := h.2.2 "53".data (by decide)
    simpa using this

/-- C9: if a pattern produced by brace expansion begins with the segment
`**/` and a top-level candidate (no `/` in its relative path) matches the
prefix-stripped variant, then the candidate matches the overall
pattern. -/
theorem C9_prefix_stripped_top_level (P x pat : List Char)
    (hmem : pat ∈ _expand_brace_patterns P)
    (hpre : ['*', '*', '/'].isPrefixOf pat = true)
    (_htop : '/' ∉ x)
    (hmatch : pathMatch x (pat.drop 3) = true) :
    _matches x P = true :=
  matches_iff.mpr ⟨pat, hmem, .inr ⟨hpre, hmatch⟩⟩

/-- C9 witness: the top-level file `a.yaml` matches `**/*.yaml` because
it matches the stripped variant `*.yaml`. -/
theorem C9_prefix_stripped_top_level_witness :
    _matches "a.yaml".data "**/*.yaml".data = true :=
  C9_prefix_stripped_top_level "**/*.yaml".data "a.yaml".data "**/*.yaml".data
    (by decide) (by decide) (by decide) (by decide)

theorem scanEntry_none_of_parse_error {g : List Char} {e : CorpusEntry}
    (h : e.parsed = .error ()) : scanEntry g e = none := by
  unfold scanEntry
  split
  · rw [h]
  · rfl

/-- C7: a corpus file whose content fails to parse is silently skipped by
the posture scan — the scan result is identical with and without it —
whereas validating the same content through the single-file operation
propagates the parse failure as a `ParseError` instead of returning a
report. -/
theorem C7_parse_error_skip_vs_propagate :
    (∀ (g : List Char) (pre post : List CorpusEntry) (e : CorpusEntry),
        e.parsed = .error () →
        zero_trust_checklist g (pre ++ e :: post) =
          zero_trust_checklist g (pre ++ post)) ∧
    (∀ (root : List String) (p : String) (fs : FS) (fd : FileData),
        _enforce_under (resolveSegs (joinPyPath root p)) root = true →
        fs (resolveSegs (joinPyPath root p)) = some fd →
        fd.parsed = .error () →
        validate_cilium_policy root p fs = .error .parseError) := by
  constructor
  · intro g pre post e he
    induction pre with
    | nil =>
      simp only [List.nil_append, zero_trust_checklist,
        scanEntry_none_of_parse_error he]
    | cons e' pre' ih =>
      simp only [List.cons_append, zero_trust_checklist, List.append_eq, ih]
  · intro root p fs fd hen hfs hp
    simp only [validate_cilium_policy, if_pos hen, hfs, hp]

/-- C7 witness: a one-file corpus whose file fails to parse scans to the
same result as the empty corpus, and validating a failing file by name
yields `ParseError`. -/
theorem C7_parse_error_skip_vs_propagate_witness :
    zero_trust_checklist "**/*.yaml".data [⟨"bad.yaml".data, .error ()⟩] =
      zero_trust_checklist "**/*.yaml".data [] ∧
    validate_cilium_policy ["data"] "bad.yaml"
      (fun _ => some ⟨"kind: [", .error ()⟩) = .error .parseError := by
  constructor
  · exact C7_parse_error_skip_vs_propagate.1 "**/*.yaml".data [] []
      ⟨"bad.yaml".data, .error ()⟩ rfl
  · exact C7_parse_error_skip_vs_propagate.2 ["data"] "bad.yaml"
      (fun _ => some ⟨"kind: [", .error ()⟩) ⟨"kind: [", .error ()⟩
      (by decide) rfl rfl

/-- C10: for every corpus and glob pattern the scan's stats satisfy
`total = cnp + ccnp`, the details list has exactly `total` rows, and both
`with_l7` and `dns_ok` lie between 0 and `total`. -/
theorem C10_scan_invariants (g : List Char) (corpus : List CorpusEntry) :
    (zero_trust_checklist g corpus).1.total =
        (zero_trust_checklist g corpus).1.cnp +
          (zero_trust_checklist g corpus).1.ccnp ∧
    (zero_trust_checklist g corpus).2.length =
        (zero_trust_checklist g corpus).1.total ∧
    (zero_trust_checklist g corpus).1.with_l7 ≤
        (zero_trust_checklist g corpus).1.total ∧
    (zero_trust_checklist g corpus).1.dns_ok ≤
        (zero_trust_checklist g corpus).1.total := by
  induction corpus with
  | nil => simp [zero_trust_checklist]
  | cons e rest ih =>
    obtain ⟨ih1, ih2, ih3, ih4⟩ := ih
    simp only [zero_trust_checklist]
    cases hs : scanEntry g e with
    | none => exact ⟨ih1, ih2, ih3, ih4⟩
    | some v =>
      obtain ⟨k, l7, dns⟩ := v
      simp only [hs]
      refine ⟨?_, ?_, ?_, ?_⟩
      · by_cases hk : (k == "CiliumNetworkPolicy") = true <;> simp [hk] <;> omega
      · simp [ih2]
      · cases l7 <;> simp <;> omega
      · cases dns <;> simp <;> omega

/-- C2 counterexample: `deep/sub/file.txt` matches `sub/*.txt` under the
code's `PurePosixPath.match` suffix semantics, but not as a whole
forward-slash path under the spec's glob semantics, so the claimed
equivalence fails at this input. -/
theorem C2_counterexample :
    ¬ (_matches "deep/sub/file.txt".data "sub/*.txt".data = true ↔
       specMatches "deep/sub/file.txt".data "sub/*.txt".data = true) := by
  decide

/-- C2 (amended): for every candidate and every pattern whose normalized
set contains only relative, non-empty patterns, the candidate matches iff
some suffix of its `/`-separated segment list matches some normalized
pattern's segment list component-wise — matching is right-anchored and
per-segment (both `*` and `**` stay within one segment), not a whole-path
match with `**` crossing separators. -/
theorem C2_amended_right_anchored (x P : List Char)
    (hrel : ∀ pat ∈ _normalize_patterns P,
      ¬ pat.head? = some '/' ∧ ¬ parseParts pat = []) :
    _matches x P = true ↔
      ∃ pat ∈ _normalize_patterns P, ∃ tail,
        tail <:+ parseParts x ∧
        List.Forall₂ (fun seg pseg => segMatch pseg seg = true) tail
          (parseParts pat) := by
  unfold _matches
  rw [List.any_eq_true]
  constructor
  · rintro ⟨pat, hmem, hm⟩
    exact ⟨pat, hmem, (pathMatch_iff (hrel pat hmem).1 (hrel pat hmem).2).mp hm⟩
  · rintro ⟨pat, hmem, htail⟩
    exact ⟨pat, hmem, (pathMatch_iff (hrel pat hmem).1 (hrel pat hmem).2).mpr htail⟩

/-- C2 amended witness: `a/b.yaml` matches `**/*.yaml` because its suffix
`[b.yaml]` matches the stripped pattern `*.yaml` segment-wise. -/
theorem C2_amended_right_anchored_witness :
    _matches "a/b.yaml".data "**/*.yaml".data = true := by
  refine (C2_amended_right_anchored "a/b.yaml".data "**/*.yaml".data (by decide)).mpr ?_
  refine ⟨"*.yaml".data, by decide, ["b.yaml".data], ⟨["a".data], by decide⟩, ?_⟩
  exact List.Forall₂.cons (by decide) List.Forall₂.nil

/-- C3: a pattern carrying one balanced single-level brace group with
alternatives `alts` matches a candidate iff the candidate matches the
pattern with the group replaced by at least one alternative; a pattern
whose first `{` is never closed is not expanded (it stays a single
literal pattern). -/
theorem C3_brace_expansion (x pre post : List Char) (alts : List (List Char))
    (hne : alts ≠ [])
    (hpre : '{' ∉ pre) (hpost : '{' ∉ post)
    (halts : ∀ a ∈ alts, '{' ∉ a ∧ '}' ∉ a ∧ ',' ∉ a) :
    (_matches x (pre ++ '{' :: (joinWith ',' alts ++ '}' :: post)) = true ↔
      ∃ a ∈ alts, _matches x (pre ++ a ++ post) = true) ∧
    (∀ u v : List Char, '{' ∉ u → '}' ∉ v →
      _expand_brace_patterns (u ++ '{' :: v) = [u ++ '{' :: v]) := by
  have hnob : ∀ a ∈ alts, '{' ∉ pre ++ a ++ post := by
    intro a ha hm
    rcases List.mem_append.mp hm with h1 | h2
    · rcases List.mem_append.mp h1 with h3 | h4
      · exact hpre h3
      · exact (halts a ha).1 h4
    · exact hpost h2
  constructor
  · rw [matches_iff]
    have hexp := @expand_group pre post alts hne hpre halts
    constructor
    · rintro ⟨pat, hmem, hcase⟩
      rw [hexp] at hmem
      obtain ⟨a, ha, rfl⟩ := List.mem_map.mp hmem
      refine ⟨a, ha, matches_iff.mpr ⟨pre ++ a ++ post, ?_, hcase⟩⟩
      rw [expand_of_no_open (hnob a ha)]
      exact List.mem_singleton.mpr rfl
    · rintro ⟨a, ha, hm⟩
      obtain ⟨pat, hmem, hcase⟩ := matches_iff.mp hm
      rw [expand_of_no_open (hnob a ha)] at hmem
      rcases List.mem_singleton.mp hmem with rfl
      refine ⟨pre ++ a ++ post, ?_, hcase⟩
      rw [hexp]
      exact List.mem_map.mpr ⟨a, ha, rfl⟩
  · intro u v hu hv
    by_cases hc : '}' ∈ u ++ '{' :: v
    · simp only [_expand_brace_patterns, partitionOn_append _ hu,
        partitionOn_of_not_mem hv]
      split <;> simp
    · simp only [_expand_brace_patterns]
      rw [if_neg]
      rintro ⟨_, h2⟩
      exact hc h2

/-- C3 witness: `a.yml` matches `*.{yml,yaml}` via the alternative `yml`,
and `a{b` (no closing brace) is not expanded. -/
theorem C3_brace_expansion_witness :
    _matches "a.yml".data
      ("*.".data ++ '{' :: (joinWith ',' ["yml".data, "yaml".data] ++ '}' :: [])) = true ∧
    _expand_brace_patterns ("a".data ++ '{' :: "b".data) =
      ["a".data ++ '{' :: "b".data] := by
  have h := C3_brace_expansion "a.yml".data "*.".data [] ["yml".data, "yaml".data]
    (by decide) (by decide) (by decide) (by decide)
  constructor
  · exact h.1.mpr ⟨"yml".data, by decide, by decide⟩
  · exact h.2 "a".data "b".data (by decide) (by decide)

theorem docDNS_true_of_egress_fqdn {d s : Yaml} (hs : s ∈ egressSections d)
    (h : truthy (yGet s "toFQDNs") = true) : docDNS d = true := by
  unfold docDNS
  rw [List.any_eq_true]
  refine ⟨s, ?_, by simp [h]⟩
  unfold sectionsOf
  exact List.mem_append_right _ hs

theorem docL7_true_of_ingress_ports {d s tp : Yaml} (hs : s ∈ ingressSections d)
    (htp : tp ∈ orList (yGet s "toPorts")) (h : truthy (yGet tp "ports") = true) :
    docL7 d = true := by
  unfold docL7
  rw [List.any_eq_true]
  refine ⟨s, ?_, ?_⟩
  · unfold sectionsOf
    exact List.mem_append_left _ hs
  · rw [List.any_eq_true]
    exact ⟨tp, htp, by simp [h]⟩

theorem docL7_false_of_no_ports {d : Yaml}
    (h : ∀ s ∈ sectionsOf d, ∀ tp ∈ orList (yGet s "toPorts"),
      truthy (yGet tp "ports") = false ∧ truthy (yGet tp "rules") = false) :
    docL7 d = false := by
  unfold docL7
  rw [List.any_eq_false]
  intro s hs
  rw [Bool.not_eq_true, List.any_eq_false]
  intro tp htp
  simp [(h s hs tp htp).1, (h s hs tp htp).2]

theorem docDNS_false_of_no_signals {d : Yaml}
    (h : ∀ s ∈ sectionsOf d,
      truthy (yGet s "toFQDNs") = false ∧
      containsStr (ySafeDump s) "port: \x2753\x27" = false ∧
      containsStr (ySafeDump s) "port: 53" = false) :
    docDNS d = false := by
  unfold docDNS
  rw [List.any_eq_false]
  intro s hs
  simp [(h s hs).1, (h s hs).2.1, (h s hs).2.2]

/-- C6: scanning a corpus of exactly three admitted, parseable
CiliumNetworkPolicy files — two declaring truthy `toFQDNs` in an egress
section and carrying no populated `toPorts` anywhere, one carrying a
populated `toPorts.ports` entry in an ingress section and no DNS signal —
yields `total = 3`, `cnp = 3`, `ccnp = 0`, `with_l7 = 1`, `dns_ok = 2`,
the L7 flag being computed over the union of ingress and egress rules. -/
theorem C6_posture_scan_stats (g : List Char) (e1 e2 e3 : CorpusEntry)
    (d1 d2 d3 : Yaml)
    (ha1 : entryAdmitted g e1 = true) (ha2 : entryAdmitted g e2 = true)
    (ha3 : entryAdmitted g e3 = true)
    (hp1 : e1.parsed = .ok d1) (hp2 : e2.parsed = .ok d2)
    (hp3 : e3.parsed = .ok d3)
    (hk1 : ciliumKind d1 = some "CiliumNetworkPolicy")
    (hk2 : ciliumKind d2 = some "CiliumNetworkPolicy")
    (hk3 : ciliumKind d3 = some "CiliumNetworkPolicy")
    (hdns1 : ∃ s ∈ egressSections d1, truthy (yGet s "toFQDNs") = true)
    (hdns2 : ∃ s ∈ egressSections d2, truthy (yGet s "toFQDNs") = true)
    (hl71 : ∀ s ∈ sectionsOf d1, ∀ tp ∈ orList (yGet s "toPorts"),
      truthy (yGet tp "ports") = false ∧ truthy (yGet tp "rules") = false)
    (hl72 : ∀ s ∈ sectionsOf d2, ∀ tp ∈ orList (yGet s "toPorts"),
      truthy (yGet tp "ports") = false ∧ truthy (yGet tp "rules") = false)
    (hl73 : ∃ s ∈ ingressSections d3, ∃ tp ∈ orList (yGet s "toPorts"),
      truthy (yGet tp "ports") = true)
    (hdns3 : ∀ s ∈ sectionsOf d3,
      truthy (yGet s "toFQDNs") = false ∧
      containsStr (ySafeDump s) "port: \x2753\x27" = false ∧
      containsStr (ySafeDump s) "port: 53" = false) :
    (zero_trust_checklist g [e1, e2, e3]).1 = ⟨3, 3, 0, 1, 2⟩ ∧
    (zero_trust_checklist g [e1, e2, e3]).2.length = 3 := by
  obtain ⟨s1, hs1, hf1⟩ := hdns1
  obtain ⟨s2, hs2, hf2⟩ := hdns2
  obtain ⟨s3, hs3, tp3, htp3, hb3⟩ := hl73
  have hD1 : docDNS d1 = true := docDNS_true_of_egress_fqdn hs1 hf1
  have hD2 : docDNS d2 = true := docDNS_true_of_egress_fqdn hs2 hf2
  have hD3 : docDNS d3 = false := docDNS_false_of_no_signals hdns3
  have hL1 : docL7 d1 = false := docL7_false_of_no_ports hl71
  have hL2 : docL7 d2 = false := docL7_false_of_no_ports hl72
  have hL3 : docL7 d3 = true := docL7_true_of_ingress_ports hs3 htp3 hb3
  have se1 : scanEntry g e1 = some ("CiliumNetworkPolicy", false, true) := by
    simp [scanEntry, ha1, hp1, hk1, hL1, hD1]
  have se2 : scanEntry g e2 = some ("CiliumNetworkPolicy", false, true) := by
    simp [scanEntry, ha2, hp2, hk2, hL2, hD2]
  have se3 : scanEntry g e3 = some ("CiliumNetworkPolicy", true, false) := by
    simp [scanEntry, ha3, hp3, hk3, hL3, hD3]
  constructor
  · simp [zero_trust_checklist, se1, se2, se3]
  · simp [zero_trust_checklist, se1, se2, se3]

/-- A CiliumNetworkPolicy declaring `toFQDNs` in its egress section. -/
def egressFqdnDoc : Yaml := .map
  [("kind", .str "CiliumNetworkPolicy"),
   ("metadata", .map [("name", .str "p1")]),
   ("spec", .map [("egress", .list
      [.map [("toFQDNs", .list [.map [("matchName", .str "example.com")]])]])])]

/-- A CiliumNetworkPolicy with a populated `toPorts.ports` ingress entry. -/
def ingressL7Doc : Yaml := .map
  [("kind", .str "CiliumNetworkPolicy"),
   ("metadata", .map [("name", .str "p3")]),
   ("spec", .map [("ingress", .list
      [.map [("toPorts", .list
         [.map [("ports", .list
            [.map [("port", .str "443"), ("protocol", .str "TCP")]])]])]])])]

/-- C6 witness: a concrete three-file corpus of the described shape scans
to exactly `{total: 3, cnp: 3, ccnp: 0, with_l7: 1, dns_ok: 2}`. -/
theorem C6_posture_scan_stats_witness :
    (zero_trust_checklist "**/*.\x7byml,yaml\x7d".data
      [⟨"p1.yaml".data, .ok egressFqdnDoc⟩,
       ⟨"p2.yaml".data, .ok egressFqdnDoc⟩,
       ⟨"p3.yaml".data, .ok ingressL7Doc⟩]).1 = ⟨3, 3, 0, 1, 2⟩ :=
  (C6_posture_scan_stats "**/*.\x7byml,yaml\x7d".data
    ⟨"p1.yaml".data, .ok egressFqdnDoc⟩
    ⟨"p2.yaml".data, .ok egressFqdnDoc⟩
    ⟨"p3.yaml".data, .ok ingressL7Doc⟩
    egressFqdnDoc egressFqdnDoc ingressL7Doc
    (by decide) (by decide) (by decide)
    rfl rfl rfl
    (by decide) (by decide) (by decide)
    (by decide) (by decide)
    (by decide) (by decide)
    (by decide) (by decide)).1

end Draupnir
